import Mathlib

/-!
# Verification of the simplified Kubernetes control plane core

This file gives a shallow embedding of the Resource Store, the API gateway
URL parse and merge patch, and the controller reconciliation functions of
the repository, and settles the specification claims against it.

Conventions of the embedding:

* Go `map[string]T` values are modelled as association lists
  (`List (String × T)`) together with `mapLookup` / `mapInsert` /
  `mapErase`, which mirror Go map indexing, assignment and `delete`.
* Wall-clock reads (`time.Now()`) are modelled by an explicit `now : Nat`
  argument, so every operation is a pure function of its inputs.
* `metav1.Time` zero values are modelled by `0`; `types.UID` and
  `resourceVersion` are strings exactly as in the source.
-/

set_option autoImplicit false

namespace KCore

/-! ## Association-list maps (model of Go `map[string]T`) -/

/-- Lookup in an association list; mirrors Go map indexing `m[k]`. -/
def mapLookup {α : Type} : List (String × α) → String → Option α
  | [], _ => none
  | (k', v) :: rest, k => if k' = k then some v else mapLookup rest k

/-- Insert/replace in an association list; mirrors Go map assignment `m[k] = v`. -/
def mapInsert {α : Type} : List (String × α) → String → α → List (String × α)
  | [], k, v => [(k, v)]
  | (k', v') :: rest, k, v =>
    if k' = k then (k, v) :: rest else (k', v') :: mapInsert rest k v

/-- Remove a key from an association list; mirrors Go `delete(m, k)`. -/
def mapErase {α : Type} : List (String × α) → String → List (String × α)
  | [], _ => []
  | (k', v') :: rest, k =>
    if k' = k then rest else (k', v') :: mapErase rest k

/-! ## Data model: GVK, object metadata, events -/

/-- `schema.GroupVersionKind`. -/
structure GVK where
  group : String
  version : String
  kind : String
deriving DecidableEq

/-- The metadata facet of a stored object (`metav1.Object`): the fields the
Store reads and writes.  `creationTimestamp = 0` models the zero time. -/
structure ObjMeta where
  name : String
  ns : String
  uid : String
  resourceVersion : String
  creationTimestamp : Nat
deriving DecidableEq

/-- A resource object: metadata plus an opaque payload standing for the
kind-specific spec/status content, which the Store never inspects. -/
structure KObject where
  meta : ObjMeta
  payload : String
deriving DecidableEq

/-- `storage.EventType`. -/
inductive EventType where
  | added
  | modified
  | deleted
  | bookmark
deriving DecidableEq

/-- `storage.ResourceEvent`: type, object, and (for MODIFIED) prior object. -/
structure ResourceEvent where
  etype : EventType
  obj : KObject
  oldObj : Option KObject
deriving DecidableEq

/-! ## MemoryStore

Embedding of `MemoryStore` from the storage package: a two-level map
`resources : key ↦ (name ↦ object)` plus the global `version` counter. -/

/-- `MemoryStore` state (`resources` and `version`; watcher queues are
modelled separately, see `sendNonBlocking`). -/
structure MemoryStore where
  resources : List (String × List (String × KObject))
  version : Nat
deriving DecidableEq

/-- `NewMemoryStore`. -/
def NewMemoryStore : MemoryStore :=
  { resources := [], version := 0 }

/-- `MemoryStore.key`: `group/version/kind[/namespace]/name`. -/
def MemoryStore.key (gvk : GVK) (ns name : String) : String :=
  if ns = "" then
    gvk.group ++ "/" ++ gvk.version ++ "/" ++ gvk.kind ++ "/" ++ name
  else
    gvk.group ++ "/" ++ gvk.version ++ "/" ++ gvk.kind ++ "/" ++ ns ++ "/" ++ name

/-- `MemoryStore.Create`.  Mirrors the source exactly: existence check on
`resources[key][name]`, then `version++`, then `resourceVersion`,
`creationTimestamp` and `uid` are each filled only when the client-supplied
value is empty/zero, then the object is stored and an `ADDED` event is
published.  `now` models `time.Now()`. -/
def MemoryStore.Create (s : MemoryStore) (gvk : GVK) (obj : KObject) (now : Nat) :
    Except String (MemoryStore × ResourceEvent) :=
  let ns := obj.meta.ns
  let name := obj.meta.name
  let key := MemoryStore.key gvk ns name
  let alreadyThere :=
    match mapLookup s.resources key with
    | some nsMap => (mapLookup nsMap name).isSome
    | none => false
  if alreadyThere then
    .error ("resource already exists: " ++ ns ++ "/" ++ name)
  else
    let version := s.version + 1
    let meta1 :=
      if obj.meta.resourceVersion = "" then
        { obj.meta with resourceVersion := toString version }
      else obj.meta
    let meta2 :=
      if meta1.creationTimestamp = 0 then
        { meta1 with creationTimestamp := now }
      else meta1
    let meta3 :=
      if meta2.uid = "" then
        { meta2 with uid := "uid-" ++ toString version }
      else meta2
    let obj' : KObject := { obj with meta := meta3 }
    let nsMap := (mapLookup s.resources key).getD []
    let resources' := mapInsert s.resources key (mapInsert nsMap name obj')
    .ok ({ resources := resources', version := version },
         { etype := .added, obj := obj', oldObj := none })

/-- `MemoryStore.Update`.  Mirrors the source: fails when the object is
absent, otherwise `version++`, the object's `resourceVersion` is set to the
new counter unconditionally, the whole object replaces the stored one, and
a `MODIFIED` event carrying the prior object is published. -/
def MemoryStore.Update (s : MemoryStore) (gvk : GVK) (obj : KObject) :
    Except String (MemoryStore × ResourceEvent) :=
  let ns := obj.meta.ns
  let name := obj.meta.name
  let key := MemoryStore.key gvk ns name
  let stored :=
    match mapLookup s.resources key with
    | some nsMap => mapLookup nsMap name
    | none => none
  match stored with
  | none => .error ("resource not found: " ++ ns ++ "/" ++ name)
  | some oldObj =>
    let version := s.version + 1
    let obj' : KObject :=
      { obj with meta := { obj.meta with resourceVersion := toString version } }
    let nsMap := (mapLookup s.resources key).getD []
    let resources' := mapInsert s.resources key (mapInsert nsMap name obj')
    .ok ({ resources := resources', version := version },
         { etype := .modified, obj := obj', oldObj := some oldObj })

/-- `MemoryStore.Delete`.  Mirrors the source: fails when absent, removes
the entry (and the inner map when it becomes empty), publishes `DELETED`
with the last state.  The `version` counter is NOT touched by Delete. -/
def MemoryStore.Delete (s : MemoryStore) (gvk : GVK) (ns name : String) :
    Except String (MemoryStore × ResourceEvent) :=
  let key := MemoryStore.key gvk ns name
  match mapLookup s.resources key with
  | none => .error ("resource not found: " ++ ns ++ "/" ++ name)
  | some nsMap =>
    match mapLookup nsMap name with
    | none => .error ("resource not found: " ++ ns ++ "/" ++ name)
    | some obj =>
      let nsMap' := mapErase nsMap name
      let resources' :=
        if nsMap'.length = 0 then mapErase s.resources key
        else mapInsert s.resources key nsMap'
      .ok ({ resources := resources', version := s.version },
           { etype := .deleted, obj := obj, oldObj := none })

/-! ## Watcher queues

`Watch` creates a channel with buffer capacity 100; `notifyWatchers`
publishes with `select { case ch <- event: default: }`, i.e. when a queue
is full the NEW event is skipped and the queue is left unchanged. -/

/-- The buffer capacity of a watch channel (`make(chan ResourceEvent, 100)`). -/
def watchChanCapacity : Nat := 100

/-- One watcher queue: the events currently buffered, oldest first. -/
def sendNonBlocking (q : List ResourceEvent) (e : ResourceEvent) :
    List ResourceEvent :=
  if q.length < watchChanCapacity then q ++ [e] else q

/-- Publishing a sequence of events to one watcher queue, in order. -/
def publishAll (q : List ResourceEvent) (es : List ResourceEvent) :
    List ResourceEvent :=
  es.foldl sendNonBlocking q

/-! ## Concrete fixtures used by counterexamples and witnesses -/

/-- The core/v1 Pod GVK. -/
def gvkPod : GVK := ⟨"", "v1", "Pod"⟩

/-- A client object with all Store-filled fields left empty. -/
def cxObjA : KObject := ⟨⟨"a", "default", "", "", 0⟩, "spec-a"⟩

/-- A client object that supplies its own `resourceVersion = "0"`. -/
def cxObjB : KObject := ⟨⟨"b", "default", "", "0", 0⟩, "spec-b"⟩

/-- A client object that supplies uid, resourceVersion and
creationTimestamp of its own. -/
def cxObjFull : KObject := ⟨⟨"c", "default", "client-uid", "999", 7⟩, "spec-c"⟩

/-- The store state after creating `cxObjA` in a fresh store at time 5. -/
def cxStore1 : MemoryStore :=
  ⟨[("/v1/Pod/default/a",
     [("a", ⟨⟨"a", "default", "uid-1", "1", 5⟩, "spec-a"⟩)])], 1⟩

/-- The event emitted by that first create. -/
def cxEvent1 : ResourceEvent :=
  ⟨.added, ⟨⟨"a", "default", "uid-1", "1", 5⟩, "spec-a"⟩, none⟩

/-- The resourceVersion carried by the event of a successful mutation
(used to state counterexamples about observed event sequences). -/
def eventRV (r : Except String (MemoryStore × ResourceEvent)) : String :=
  match r with
  | .ok p => p.2.obj.meta.resourceVersion
  | .error _ => ""

/-- Whether a store call succeeded. -/
def callOk (r : Except String (MemoryStore × ResourceEvent)) : Bool :=
  match r with
  | .ok _ => true
  | .error _ => false

/-- The state resulting from a successful store call (fresh store on error;
never taken on the runs below, which all succeed). -/
def stateOf (r : Except String (MemoryStore × ResourceEvent)) : MemoryStore :=
  match r with
  | .ok p => p.1
  | .error _ => NewMemoryStore

/-- Decode a decimal resourceVersion string to a natural number (the spec
requires resourceVersion strings to sort as the integers they encode). -/
def rvNat (s : String) : Nat :=
  s.toList.foldl (fun n c => n * 10 + (c.toNat - 48)) 0

/-- The metadata of the object carried by the event of a store call. -/
def eventMeta (r : Except String (MemoryStore × ResourceEvent)) : ObjMeta :=
  match r with
  | .ok p => p.2.obj.meta
  | .error _ => ⟨"", "", "", "", 0⟩

/-- The object written by the second mutation of the witness run. -/
def cxObjU : KObject := ⟨⟨"a", "default", "u2", "", 9⟩, "p2"⟩

/-- The store state after updating the witness store with `cxObjU`. -/
def cxStore2u : MemoryStore :=
  ⟨[("/v1/Pod/default/a",
     [("a", ⟨⟨"a", "default", "u2", "2", 9⟩, "p2"⟩)])], 2⟩

/-- The event emitted by that update. -/
def cxEvent2u : ResourceEvent :=
  ⟨.modified, ⟨⟨"a", "default", "u2", "2", 9⟩, "p2"⟩,
   some ⟨⟨"a", "default", "uid-1", "1", 5⟩, "spec-a"⟩⟩

/-! ## MySQLStore (C6)

Embedding of the relational store's `Create` path.  The database is
modelled as one list of live rows per table; gorm's auto-increment primary
key is modelled by `nextId`.  `resourceVersion` for this backend is the
nanosecond clock, modelled by the explicit `now` argument. -/

/-- One row of a resource table (the `BaseResource` columns the Create path
touches, plus the JSON payload). -/
structure DbRow where
  id : Nat
  name : String
  ns : String
  uid : String
  resourceVersion : String
  createdAt : Nat
  payload : String
deriving DecidableEq

/-- `MySQLStore` state: populated tables and the next auto-increment id. -/
structure MySQLStore where
  tables : List (String × List DbRow)
  nextId : Nat
deriving DecidableEq

/-- `tableName`: `k8s_<group>_<version>_<kind>` with "core" for the empty
group, dots replaced by underscores, kind lowercased. -/
def tableName (gvk : GVK) : String :=
  let group := if gvk.group = "" then "core" else gvk.group
  "k8s_" ++ String.mk (group.data.map (fun c => if c = '.' then '_' else c)) ++
    "_" ++ gvk.version ++ "_" ++ String.mk (gvk.kind.data.map Char.toLower)

/-- gorm `Save` on a row that carries a primary key: replace the row with
that id. -/
def replaceRowById (rows : List DbRow) (i : Nat) (r : DbRow) : List DbRow :=
  rows.map (fun x => if x.id = i then r else x)

/-- The metadata fill of the relational Create path: `resourceVersion`
(nanosecond clock `now`), `creationTimestamp` and `uid` are each set only
when the client-supplied value is empty/zero. -/
def mysqlFillMeta (meta : ObjMeta) (now : Nat) : ObjMeta :=
  let meta1 :=
    if meta.resourceVersion = "" then { meta with resourceVersion := toString now }
    else meta
  let meta2 :=
    if meta1.creationTimestamp = 0 then { meta1 with creationTimestamp := now }
    else meta1
  if meta2.uid = "" then { meta2 with uid := "uid-" ++ toString now } else meta2

/-- `MySQLStore.Create`.  Mirrors the source: the duplicate check
(`name = ? AND namespace = ?`) runs for every GVK EXCEPT core/v1 Node;
then `resourceVersion` (nanosecond clock), `creationTimestamp` and `uid`
are filled when empty; Node rows go through `saveNode`, which updates the
existing same-named row in place (keeping its id and CreatedAt), while
every other kind is inserted as a new row. -/
def MySQLStore.CreateM (s : MySQLStore) (gvk : GVK) (obj : KObject) (now : Nat) :
    Except String MySQLStore :=
  let ns := obj.meta.ns
  let name := obj.meta.name
  let tbl := tableName gvk
  let rows := (mapLookup s.tables tbl).getD []
  let isNodeGVK := gvk.kind = "Node" ∧ gvk.group = "" ∧ gvk.version = "v1"
  if (¬ isNodeGVK) ∧ rows.any (fun r => r.name = name ∧ r.ns = ns) then
    .error ("resource already exists: " ++ ns ++ "/" ++ name)
  else
    let meta3 := mysqlFillMeta obj.meta now
    let row : DbRow :=
      ⟨s.nextId, name, ns, meta3.uid, meta3.resourceVersion,
       meta3.creationTimestamp, obj.payload⟩
    if isNodeGVK then
      match rows.find? (fun r => r.name = name) with
      | some existing =>
        let row' := { row with id := existing.id, createdAt := existing.createdAt }
        .ok { s with tables := mapInsert s.tables tbl (replaceRowById rows existing.id row') }
      | none =>
        .ok ⟨mapInsert s.tables tbl (rows ++ [row]), s.nextId + 1⟩
    else
      .ok ⟨mapInsert s.tables tbl (rows ++ [row]), s.nextId + 1⟩

/-- The core/v1 Node GVK. -/
def gvkNode : GVK := ⟨"", "v1", "Node"⟩

/-- A Node object as re-announced by a restarting node. -/
def cxNode : KObject := ⟨⟨"n1", "", "", "", 0⟩, "node-spec"⟩

/-! ## API gateway URL parse (C3)

Two versions of the gateway handler exist in the repository: the one at
`pkg/apiserver/handler.go`, whose `parseGVKFromContext` derives the Kind by
capitalizing the resource path segment, and an alternate handler version
(in the unnamed sources) whose `parseGVKFromContext` maps the resource
segment through the fixed table `kindFromResource`.  Both are embedded. -/

/-- `strings.Split` for a single-character separator. -/
def splitChar (sep : Char) : List Char → List (List Char)
  | [] => [[]]
  | c :: cs =>
    match splitChar sep cs with
    | [] => [[]]
    | h :: t => if c = sep then [] :: h :: t else (c :: h) :: t

/-- `strings.Trim(path, "/")`. -/
def trimSlashes (s : String) : String :=
  String.mk (((s.data.dropWhile (fun c => c = '/')).reverse.dropWhile
    (fun c => c = '/')).reverse)

/-- `strings.Split(strings.Trim(path, "/"), "/")`. -/
def splitSlash (s : String) : List String :=
  (splitChar '/' (trimSlashes s).data).map String.mk

/-- `strings.ToUpper(kind[:1]) + strings.ToLower(kind[1:])` (for non-empty
`kind`; ASCII, as the route segments are). -/
def capitalizeResource (kind : String) : String :=
  match kind.data with
  | [] => kind
  | c :: cs => String.mk (Char.toUpper c :: cs.map Char.toLower)

/-- The kind-selection loop of the core-API branch: the first segment of
`parts[1:]` that is none of "v1", "watch", "namespaces" (default ""). -/
def firstKindCore : List String → String
  | [] => ""
  | x :: xs =>
    if x ≠ "v1" ∧ x ≠ "watch" ∧ x ≠ "namespaces" then x else firstKindCore xs

/-- The kind-selection loop of the grouped-API branch: the first segment of
`parts[3:]` that is neither "watch" nor "namespaces" (default ""). -/
def firstKindGrouped : List String → String
  | [] => ""
  | x :: xs => if x ≠ "watch" ∧ x ≠ "namespaces" then x else firstKindGrouped xs

/-- `parseGVKFromContext` of `pkg/apiserver/handler.go`: splits the trimmed
path, dispatches on the "api"/"apis" prefix, picks the kind segment with
the skip loops above, and capitalizes it. -/
def parseGVKFromContext (path : String) : Except String GVK :=
  let parts := splitSlash path
  if parts.length < 3 then .error "invalid path format"
  else
    match parts with
    | [] => .error "invalid path format"
    | p0 :: rest =>
      if p0 = "api" then
        let version := rest.headD ""
        .ok ⟨"", version, capitalizeResource (firstKindCore rest)⟩
      else if p0 = "apis" then
        if parts.length < 4 then .error "invalid grouped API path"
        else
          let group := rest.headD ""
          let version := (rest.drop 1).headD ""
          .ok ⟨group, version, capitalizeResource (firstKindGrouped (rest.drop 2))⟩
      else .error ("unknown API path prefix: " ++ p0)

/-- `strings.ToLower(strings.TrimSpace(resource))` (ASCII). -/
def lowerTrim (s : String) : String :=
  String.mk (((s.data.dropWhile Char.isWhitespace).reverse.dropWhile
    Char.isWhitespace).reverse.map Char.toLower)

/-- `kindFromResource` of the alternate gateway handler version: the fixed
resource→Kind table; unknown resources yield an error (surfaced as 400). -/
def kindFromResource (resource : String) : Except String String :=
  match lowerTrim resource with
  | "pods" => .ok "Pod"
  | "services" => .ok "Service"
  | "configmaps" => .ok "ConfigMap"
  | "secrets" => .ok "Secret"
  | "nodes" => .ok "Node"
  | "deployments" => .ok "Deployment"
  | "statefulsets" => .ok "StatefulSet"
  | "daemonsets" => .ok "DaemonSet"
  | _ => .error ("unsupported resource: " ++ resource)

/-! ## Controller data model (C8, C9, C10) -/

/-- `corev1.PodCondition`: type, status, reason, message and
LastTransitionTime (heartbeat times are not used by the embedded code). -/
structure PodCondition where
  ctype : String
  status : String
  reason : String
  message : String
  lastTransitionTime : Nat
deriving DecidableEq

/-- The slice of `corev1.ContainerStatus` the controllers touch. -/
structure ContainerStatusC where
  cname : String
  ready : Bool
  running : Bool
  waiting : Bool
deriving DecidableEq

/-- The slice of `corev1.Pod` the controllers touch: identity,
`spec.nodeName`, `spec.containers` (names), `status.phase`,
`status.conditions`, `status.containerStatuses`. -/
structure PodC where
  name : String
  ns : String
  nodeName : String
  phase : String
  conditions : List PodCondition
  containerStatuses : List ContainerStatusC
  containers : List String
deriving DecidableEq

/-! ## Runtime controller (C8)

`RuntimeController.processPods` / `syncPendingPods` filter Pods with
`pod.Spec.NodeName != "" && pod.Status.Phase != corev1.PodRunning`; the
surrounding comment says "只处理已调度到当前节点且未运行的 Pod" (only handle
Pods scheduled to the CURRENT node and not yet running), but no comparison
against a configured node name exists — `RuntimeController` does not even
receive the manager's `nodeName`. -/

/-- The Pod filter of `processPods` (part_007 line 127) and
`syncPendingPods` (line 97). -/
def runtimeShouldHandle (pod : PodC) : Bool :=
  decide (pod.nodeName ≠ "") && decide (pod.phase ≠ "Running")

/-- `handlePod` when the driver reports the container as not running:
start it and write the Pod back with phase Running, a single running
container status for the first container, and a fresh `Ready=True`
condition list. -/
def runtimeStartedPod (pod : PodC) (now : Nat) : PodC :=
  { pod with
    phase := "Running"
    containerStatuses := [⟨pod.containers.headD "", true, true, false⟩]
    conditions := [⟨"Ready", "True", "ContainersReady",
      "All containers are ready", now⟩] }

/-- One step of the runtime controller's event loop: the Pod written back
to the Store (via `Update`), if any.  `driverRunning` models the container
driver's status report for this Pod. -/
def runtimeProcessEvent (driverRunning : Bool) (etype : EventType)
    (pod : PodC) (now : Nat) : Option PodC :=
  match etype with
  | .added => if runtimeShouldHandle pod then
      (if driverRunning then none else some (runtimeStartedPod pod now)) else none
  | .modified => if runtimeShouldHandle pod then
      (if driverRunning then none else some (runtimeStartedPod pod now)) else none
  | .deleted => none
  | .bookmark => none

/-- A Pod assigned to node "node-2" (not the node this controller runs on). -/
def cxPodOtherNode : PodC :=
  ⟨"p1", "default", "node-2", "Pending", [], [], ["c1"]⟩

/-! ## Pod status controller: `updatePodConditions` (C9)

The function builds a map from condition type to a pointer at the LAST
condition of that type, then runs three blocks (PodScheduled,
PodInitialized, PodReady).  A block whose condition exists and is not
"True" mutates it in place (status, reason, message and
LastTransitionTime := now); a block whose condition is absent appends a
fresh condition value and then mutates a LOCAL pointer, so only the
appended copy — zero status, transition time `now` — lands in the slice.
In-place mutation is modelled as a list `set` at the recorded index (the
Go behavior when `append` does not reallocate the backing array; the
reconciles studied here perform no append before a mutation). -/

/-- Index of the LAST condition of type `t` (the `conditions` map is built
front to back with overwrite, so the last pointer per type wins). -/
def findLastIdxAux (t : String) : List PodCondition → Nat → Option Nat
  | [], _ => none
  | c :: rest, i =>
    match findLastIdxAux t rest (i + 1) with
    | some j => some j
    | none => if c.ctype = t then some i else none

/-- Index of the last condition of type `t` in a condition list. -/
def findLastIdx (conds : List PodCondition) (t : String) : Option Nat :=
  findLastIdxAux t conds 0

/-- One conditional-update block of `updatePodConditions`: when the
condition exists (at `idx?`) and is not already "True", overwrite status/
reason/message and stamp `lastTransitionTime := now`; when it is already
"True", do nothing; when absent, append the fresh-value copy (empty
status, transition time `now`) that survives the Go pointer aliasing. -/
def condBlock (conds : List PodCondition) (idx? : Option Nat) (ctype : String)
    (status reason message : String) (now : Nat) : List PodCondition :=
  match idx? with
  | some i =>
    match conds[i]? with
    | some c =>
      if c.status ≠ "True" then
        conds.set i ⟨c.ctype, status, reason, message, now⟩
      else conds
    | none => conds
  | none => conds ++ [⟨ctype, "", "", "", now⟩]

/-- `PodController.updatePodConditions`. -/
def updatePodConditions (pod : PodC) (now : Nat) : PodC :=
  let conds0 := pod.conditions
  let schedIdx := findLastIdx conds0 "PodScheduled"
  let initIdx := findLastIdx conds0 "Initialized"
  let readyIdx := findLastIdx conds0 "Ready"
  let conds1 :=
    if pod.nodeName ≠ "" then
      condBlock conds0 schedIdx "PodScheduled" "True" "Scheduled"
        ("Successfully assigned " ++ pod.ns ++ "/" ++ pod.name ++ " to " ++
          pod.nodeName) now
    else conds0
  let conds2 :=
    if pod.nodeName ≠ "" then
      condBlock conds1 initIdx "Initialized" "True" "Initialized"
        "Pod has been initialized" now
    else conds1
  let allContainersReady := pod.containerStatuses.all (fun st => st.ready)
  let conds3 :=
    if allContainersReady = true ∧ pod.phase = "Running" then
      condBlock conds2 readyIdx "Ready" "True" "ContainersReady"
        "All containers are ready" now
    else
      condBlock conds2 readyIdx "Ready" "False" "ContainersNotReady"
        "Not all containers are ready" now
  { pod with conditions := conds3 }

/-- A Pod whose PodReady condition is False (containers not ready) and
stays False across the reconcile. -/
def cxPodNotReady : PodC :=
  ⟨"p1", "default", "", "Pending",
   [⟨"Ready", "False", "NotReady", "Pod is not ready", 5⟩],
   [⟨"c1", false, false, true⟩], ["c1"]⟩

/-! ## Scheduler controller (C10) -/

/-- The slice of `corev1.NodeCondition` the scheduler reads. -/
structure NodeCondition where
  ctype : String
  status : String
deriving DecidableEq

/-- The slice of `corev1.Node` the scheduler reads. -/
structure NodeC where
  name : String
  conditions : List NodeCondition
deriving DecidableEq

/-- `SchedulerController.isNodeReady`: the first `Ready` condition decides;
a node without a `Ready` condition is not ready. -/
def isNodeReady (n : NodeC) : Bool :=
  match n.conditions.find? (fun c => c.ctype = "Ready") with
  | some c => c.status = "True"
  | none => false

/-- `SchedulerController.schedulePod`: pick the first Ready node, set
`spec.nodeName`, keep phase Pending, and REPLACE the whole
`status.conditions` list with a single `PodScheduled=True` condition. -/
def schedulePod (nodes : List NodeC) (pod : PodC) (now : Nat) :
    Except String PodC :=
  if nodes.length = 0 then .error "no nodes available"
  else
    match nodes.find? (fun n => isNodeReady n) with
    | none => .error "no ready node available"
    | some node =>
      .ok { pod with
        nodeName := node.name
        phase := "Pending"
        conditions := [⟨"PodScheduled", "True", "Scheduled",
          "Successfully assigned " ++ pod.ns ++ "/" ++ pod.name ++ " to " ++
            node.name, now⟩] }

/-! ## API gateway merge patch (C7)

Embedding of `mergePatch` from `pkg/apiserver/handler.go`: JSON values as
an inductive type; the Go `map[string]interface{}` objects as association
lists (their keys are unique, since they come from `json.Unmarshal`).
`mergePatch(dst, src)` processes the patch entries in order: a `null`
value deletes the key, an object value merges recursively into a
same-keyed object of the target (and otherwise replaces wholesale), and
any other value replaces. -/

inductive Json where
  | null : Json
  | bool : Bool → Json
  | num : Int → Json
  | str : String → Json
  | arr : List Json → Json
  | obj : List (String × Json) → Json

mutual
def mergePatch : List (String × Json) → List (String × Json) → List (String × Json)
  | dst, [] => dst
  | dst, (k, v) :: rest => mergePatch (applyEntry dst k v) rest
termination_by dst src => (sizeOf src, 0)

def applyEntry (dst : List (String × Json)) (k : String) (v : Json) :
    List (String × Json) :=
  match v with
  | .null => mapErase dst k
  | .obj srcMap => mapInsert dst k (.obj (mergeIntoTarget (mapLookup dst k) srcMap))
  | _ => mapInsert dst k v
termination_by (sizeOf v, 2)

def mergeIntoTarget : Option Json → List (String × Json) → List (String × Json)
  | some (.obj dstMap), srcMap => mergePatch dstMap srcMap
  | _, srcMap => srcMap
termination_by o srcMap => (sizeOf srcMap, 1)
end

def keyMem (k : String) (p : List (String × Json)) : Bool :=
  p.any (fun q => q.1 == k)

def keysNodupJ : List (String × Json) → Bool
  | [] => true
  | (k, _) :: rest => !(keyMem k rest) && keysNodupJ rest

mutual
def Json.strictNoNull : Json → Bool
  | .null => false
  | .obj fields => keysNodupJ fields && strictFields fields
  | _ => true
def strictFields : List (String × Json) → Bool
  | [] => true
  | (_, v) :: rest => v.strictNoNull && strictFields rest
end

mutual
def Json.wfJson : Json → Bool
  | .obj fields => keysNodupJ fields && wfFields fields
  | _ => true
def wfFields : List (String × Json) → Bool
  | [] => true
  | (_, v) :: rest => v.wfJson && wfFields rest
end

def fieldsWf (l : List (String × Json)) : Bool := keysNodupJ l && wfFields l

def patchVals : List (String × Json) → Bool
  | [] => true
  | (_, v) :: rest =>
    (match v with
     | Json.null => true
     | _ => v.strictNoNull) && patchVals rest

def patchOk (p : List (String × Json)) : Bool := keysNodupJ p && patchVals p

example : mergePatch [("a", Json.num 5)] [("a", Json.obj [("b", Json.null)])] =
    [("a", Json.obj [("b", Json.null)])] := by
  simp [mergePatch, applyEntry, mergeIntoTarget, mapLookup, mapInsert]

/-! ## Association-list lemmas -/

theorem mapLookup_mapInsert_self {α : Type} (m : List (String × α)) (k : String)
    (v : α) : mapLookup (mapInsert m k v) k = some v := by
  induction m with
  | nil => simp [mapInsert, mapLookup]
  | cons p rest ih =>
    obtain ⟨k', v'⟩ := p
    by_cases hk : k' = k <;> simp [mapInsert, mapLookup, hk, ih]

theorem mapLookup_mapInsert_ne {α : Type} (m : List (String × α)) (k j : String)
    (v : α) (hjk : j ≠ k) : mapLookup (mapInsert m j v) k = mapLookup m k := by
  induction m with
  | nil => simp [mapInsert, mapLookup, hjk]
  | cons p rest ih =>
    obtain ⟨k', v'⟩ := p
    by_cases hk : k' = j
    · subst hk
      simp [mapInsert, mapLookup, hjk]
    · simp [mapInsert, mapLookup, hk, ih]

theorem mapLookup_mapErase_ne {α : Type} (m : List (String × α)) (k j : String)
    (hjk : j ≠ k) : mapLookup (mapErase m j) k = mapLookup m k := by
  induction m with
  | nil => simp [mapErase, mapLookup]
  | cons p rest ih =>
    obtain ⟨k', v'⟩ := p
    by_cases hk : k' = j
    · subst hk
      simp [mapErase, mapLookup, hjk]
    · simp [mapErase, mapLookup, hk, ih]

theorem mapInsert_of_mapLookup_eq {α : Type} (m : List (String × α)) (k : String)
    (v : α) (h : mapLookup m k = some v) : mapInsert m k v = m := by
  induction m with
  | nil => simp [mapLookup] at h
  | cons p rest ih =>
    obtain ⟨k', v'⟩ := p
    by_cases hk : k' = k
    · subst hk
      simp [mapLookup] at h
      simp [mapInsert, h]
    · simp [mapLookup, hk] at h
      simp [mapInsert, hk, ih h]

theorem mapErase_of_mapLookup_none {α : Type} (m : List (String × α)) (k : String)
    (h : mapLookup m k = none) : mapErase m k = m := by
  induction m with
  | nil => simp [mapErase]
  | cons p rest ih =>
    obtain ⟨k', v'⟩ := p
    by_cases hk : k' = k
    · subst hk
      simp [mapLookup] at h
    · simp [mapLookup, hk] at h
      simp [mapErase, hk, ih h]

/-! ## Claims about the MemoryStore (C1, C2, C4) -/

/-- C1 (amended): a successful `Create` or `Update` increments the global
`version` counter by exactly one, and `Update` stamps the new counter value
on the object it stores and emits.  `Create`, however, stamps the counter
only when the client-supplied `resourceVersion` is empty — a non-empty
client value is kept verbatim — and `Delete` does not touch the counter at
all, so the `resourceVersion` values observed across an ordered sequence of
emitted events are not necessarily strictly increasing. -/
theorem version_counter_behavior (s : MemoryStore) (gvk : GVK) (o : KObject)
    (now : Nat) (ns name : String) :
    (∀ s' e, s.Create gvk o now = .ok (s', e) →
        s'.version = s.version + 1 ∧
        e.obj.meta.resourceVersion =
          (if o.meta.resourceVersion = "" then toString (s.version + 1)
           else o.meta.resourceVersion)) ∧
    (∀ s' e, s.Update gvk o = .ok (s', e) →
        s'.version = s.version + 1 ∧
        e.obj.meta.resourceVersion = toString (s.version + 1)) ∧
    (∀ s' e, s.Delete gvk ns name = .ok (s', e) → s'.version = s.version) := by
  refine ⟨?_, ?_, ?_⟩
  · intro s' e h
    simp only [MemoryStore.Create] at h
    split at h
    · simp at h
    · simp only [Except.ok.injEq, Prod.mk.injEq] at h
      obtain ⟨h1, h2⟩ := h
      subst h1
      subst h2
      refine ⟨rfl, ?_⟩
      split <;> split <;> split <;> simp_all
  · intro s' e h
    simp only [MemoryStore.Update] at h
    split at h
    · simp at h
    · simp only [Except.ok.injEq, Prod.mk.injEq] at h
      obtain ⟨h1, h2⟩ := h
      subst h1
      subst h2
      exact ⟨rfl, rfl⟩
  · intro s' e h
    simp only [MemoryStore.Delete] at h
    split at h
    · simp at h
    · split at h
      · simp at h
      · simp only [Except.ok.injEq, Prod.mk.injEq] at h
        obtain ⟨h1, h2⟩ := h
        subst h1
        rfl

/-- Witness for `version_counter_behavior`: a concrete create, update and
delete, each hypothesis discharged by computation. -/
theorem version_counter_behavior_witness :
    (cxStore1.version = NewMemoryStore.version + 1 ∧
      cxEvent1.obj.meta.resourceVersion =
        (if cxObjA.meta.resourceVersion = "" then toString (NewMemoryStore.version + 1)
         else cxObjA.meta.resourceVersion)) ∧
    (cxStore2u.version = cxStore1.version + 1 ∧
      cxEvent2u.obj.meta.resourceVersion = toString (cxStore1.version + 1)) ∧
    (cxStore1.version = cxStore1.version) :=
  ⟨(version_counter_behavior NewMemoryStore gvkPod cxObjA 5 "default" "a").1
      cxStore1 cxEvent1 rfl,
   (version_counter_behavior cxStore1 gvkPod cxObjU 0 "default" "a").2.1
      cxStore2u cxEvent2u rfl,
   (version_counter_behavior cxStore1 gvkPod cxObjU 0 "default" "a").2.2
      ⟨[], 1⟩ ⟨.deleted, ⟨⟨"a", "default", "uid-1", "1", 5⟩, "spec-a"⟩, none⟩ rfl⟩

/-- C1 counterexample: starting from a fresh store, create an object with
empty `resourceVersion` (event carries "1"), then create a second object
whose client-supplied `resourceVersion` is "0" — the second emitted event
carries resourceVersion "0", strictly below the first event's "1", so the
event-ordered resourceVersions are not strictly monotonically increasing. -/
theorem resource_version_monotonic_counterexample :
    callOk (NewMemoryStore.Create gvkPod cxObjA 5) = true ∧
    callOk ((stateOf (NewMemoryStore.Create gvkPod cxObjA 5)).Create gvkPod cxObjB 6) = true ∧
    eventRV (NewMemoryStore.Create gvkPod cxObjA 5) = "1" ∧
    eventRV ((stateOf (NewMemoryStore.Create gvkPod cxObjA 5)).Create gvkPod cxObjB 6) = "0" ∧
    rvNat (eventRV ((stateOf (NewMemoryStore.Create gvkPod cxObjA 5)).Create gvkPod cxObjB 6)) <
      rvNat (eventRV (NewMemoryStore.Create gvkPod cxObjA 5)) := by
  refine ⟨rfl, rfl, rfl, rfl, by decide⟩

/-- C2 (amended): on a successful first `Create`, the Store fills `uid`,
`creationTimestamp` and `resourceVersion` only when the client left them
empty (resp. zero); a non-empty client-supplied value for any of the three
is stored verbatim.  The stored object is exactly the emitted one. -/
theorem create_fills_only_empty_metadata (s : MemoryStore) (gvk : GVK)
    (o : KObject) (now : Nat) :
    ∀ s' e, s.Create gvk o now = .ok (s', e) →
      e.obj.meta.resourceVersion =
        (if o.meta.resourceVersion = "" then toString (s.version + 1)
         else o.meta.resourceVersion) ∧
      e.obj.meta.creationTimestamp =
        (if o.meta.creationTimestamp = 0 then now else o.meta.creationTimestamp) ∧
      e.obj.meta.uid =
        (if o.meta.uid = "" then "uid-" ++ toString (s.version + 1) else o.meta.uid) ∧
      e.obj.meta.name = o.meta.name ∧ e.obj.meta.ns = o.meta.ns ∧
      e.obj.payload = o.payload ∧
      mapLookup
        ((mapLookup s'.resources (MemoryStore.key gvk o.meta.ns o.meta.name)).getD [])
        o.meta.name = some e.obj := by
  intro s' e h
  simp only [MemoryStore.Create] at h
  split at h
  · simp at h
  · simp only [Except.ok.injEq, Prod.mk.injEq] at h
    obtain ⟨h1, h2⟩ := h
    subst h1
    subst h2
    refine ⟨?_, ?_, ?_, ?_, ?_, rfl, ?_⟩
    · split <;> split <;> split <;> simp_all
    · split <;> split <;> split <;> simp_all
    · split <;> split <;> split <;> simp_all
    · split <;> split <;> split <;> simp_all
    · split <;> split <;> split <;> simp_all
    · simp [mapLookup_mapInsert_self]

/-- Witness for `create_fills_only_empty_metadata`: the concrete first
create of the fixture run. -/
theorem create_fills_only_empty_metadata_witness :
    cxEvent1.obj.meta.resourceVersion =
      (if cxObjA.meta.resourceVersion = "" then toString (NewMemoryStore.version + 1)
       else cxObjA.meta.resourceVersion) ∧
    cxEvent1.obj.meta.creationTimestamp =
      (if cxObjA.meta.creationTimestamp = 0 then 5 else cxObjA.meta.creationTimestamp) ∧
    cxEvent1.obj.meta.uid =
      (if cxObjA.meta.uid = "" then "uid-" ++ toString (NewMemoryStore.version + 1)
       else cxObjA.meta.uid) ∧
    cxEvent1.obj.meta.name = cxObjA.meta.name ∧
    cxEvent1.obj.meta.ns = cxObjA.meta.ns ∧
    cxEvent1.obj.payload = cxObjA.payload ∧
    mapLookup
      ((mapLookup cxStore1.resources
          (MemoryStore.key gvkPod cxObjA.meta.ns cxObjA.meta.name)).getD [])
      cxObjA.meta.name = some cxEvent1.obj :=
  create_fills_only_empty_metadata NewMemoryStore gvkPod cxObjA 5 cxStore1 cxEvent1 rfl

/-- C2 counterexample: creating an object that supplies its own uid "client-uid",
resourceVersion "999" and creationTimestamp 7 succeeds, and the stored/emitted
object keeps all three client values — none of them is assigned by the Store
(the Store-assigned values would have been "uid-1", "1" and the clock value 5). -/
theorem create_metadata_client_counterexample :
    callOk (NewMemoryStore.Create gvkPod cxObjFull 5) = true ∧
    eventMeta (NewMemoryStore.Create gvkPod cxObjFull 5) =
      ⟨"c", "default", "client-uid", "999", 7⟩ ∧
    eventMeta (NewMemoryStore.Create gvkPod cxObjFull 5) ≠
      ⟨"c", "default", "uid-1", "1", 5⟩ := by
  refine ⟨rfl, rfl, by decide⟩

/-- C4 (amended): `Update` replaces the whole stored object and stamps a
fresh `resourceVersion`, but `uid` and `creationTimestamp` of the resulting
stored object are taken from the caller's submitted object — they are NOT
preserved from the prior stored version.  The `MODIFIED` event carries the
prior stored object as `oldObj`. -/
theorem update_takes_metadata_from_caller (s : MemoryStore) (gvk : GVK)
    (o : KObject) :
    ∀ s' e, s.Update gvk o = .ok (s', e) →
      e.obj.meta.uid = o.meta.uid ∧
      e.obj.meta.creationTimestamp = o.meta.creationTimestamp ∧
      e.obj.meta.name = o.meta.name ∧ e.obj.meta.ns = o.meta.ns ∧
      e.obj.payload = o.payload ∧
      e.obj.meta.resourceVersion = toString (s.version + 1) ∧
      mapLookup
        ((mapLookup s'.resources (MemoryStore.key gvk o.meta.ns o.meta.name)).getD [])
        o.meta.name = some e.obj ∧
      (∃ old, e.oldObj = some old ∧
        (match mapLookup s.resources (MemoryStore.key gvk o.meta.ns o.meta.name) with
         | some m => mapLookup m o.meta.name
         | none => none) = some old) := by
  intro s' e h
  simp only [MemoryStore.Update] at h
  split at h
  · simp at h
  · rename_i oldObj hold
    simp only [Except.ok.injEq, Prod.mk.injEq] at h
    obtain ⟨h1, h2⟩ := h
    subst h1
    subst h2
    refine ⟨rfl, rfl, rfl, rfl, rfl, rfl, ?_, oldObj, rfl, hold⟩
    simp [mapLookup_mapInsert_self]

/-- Witness for `update_takes_metadata_from_caller`: the concrete update of
the fixture run. -/
theorem update_takes_metadata_from_caller_witness :
    cxEvent2u.obj.meta.uid = cxObjU.meta.uid ∧
    cxEvent2u.obj.meta.creationTimestamp = cxObjU.meta.creationTimestamp ∧
    cxEvent2u.obj.meta.name = cxObjU.meta.name ∧
    cxEvent2u.obj.meta.ns = cxObjU.meta.ns ∧
    cxEvent2u.obj.payload = cxObjU.payload ∧
    cxEvent2u.obj.meta.resourceVersion = toString (cxStore1.version + 1) ∧
    mapLookup
      ((mapLookup cxStore2u.resources
          (MemoryStore.key gvkPod cxObjU.meta.ns cxObjU.meta.name)).getD [])
      cxObjU.meta.name = some cxEvent2u.obj ∧
    (∃ old, cxEvent2u.oldObj = some old ∧
      (match mapLookup cxStore1.resources
          (MemoryStore.key gvkPod cxObjU.meta.ns cxObjU.meta.name) with
       | some m => mapLookup m cxObjU.meta.name
       | none => none) = some old) :=
  update_takes_metadata_from_caller cxStore1 gvkPod cxObjU cxStore2u cxEvent2u rfl

/-- C4 counterexample: create an object (Store assigns uid "uid-1",
creationTimestamp 5), then update it with an object carrying uid
"intruder-uid" and creationTimestamp 99 — the updated stored object carries
the caller's uid and timestamp, not the prior version's. -/
theorem update_preserves_metadata_counterexample :
    callOk ((stateOf (NewMemoryStore.Create gvkPod cxObjA 5)).Update gvkPod
      ⟨⟨"a", "default", "intruder-uid", "", 99⟩, "spec-i"⟩) = true ∧
    eventMeta (NewMemoryStore.Create gvkPod cxObjA 5) =
      ⟨"a", "default", "uid-1", "1", 5⟩ ∧
    (eventMeta ((stateOf (NewMemoryStore.Create gvkPod cxObjA 5)).Update gvkPod
      ⟨⟨"a", "default", "intruder-uid", "", 99⟩, "spec-i"⟩)).uid = "intruder-uid" ∧
    (eventMeta ((stateOf (NewMemoryStore.Create gvkPod cxObjA 5)).Update gvkPod
      ⟨⟨"a", "default", "intruder-uid", "", 99⟩, "spec-i"⟩)).creationTimestamp = 99 := by
  refine ⟨rfl, rfl, rfl, rfl⟩

/-! ## Claim about watcher queues (C5) -/

theorem publishAll_of_le (es : List ResourceEvent) :
    ∀ q : List ResourceEvent, q.length ≤ watchChanCapacity →
      publishAll q es = q ++ es.take (watchChanCapacity - q.length) := by
  induction es with
  | nil => intro q _; simp [publishAll]
  | cons e rest ih =>
    intro q h
    by_cases hq : q.length < watchChanCapacity
    · have hstep : publishAll q (e :: rest) = publishAll (q ++ [e]) rest := by
        simp [publishAll, sendNonBlocking, hq]
      rw [hstep, ih (q ++ [e]) (by simp; omega)]
      have hcap : watchChanCapacity - q.length =
          (watchChanCapacity - (q.length + 1)) + 1 := by omega
      simp [hcap]
    · have hstep : publishAll q (e :: rest) = publishAll q rest := by
        simp [publishAll, sendNonBlocking, hq]
      have hq' : watchChanCapacity - q.length = 0 := by omega
      rw [hstep, ih q h, hq']
      simp

/-- C5 (amended): publishing never blocks the writer, but a publish against
a full queue drops the NEW event, not the oldest: a subscriber that never
drains its queue retains exactly the first `watchChanCapacity = 100`
published events, and every later event is silently discarded (the
subscriber observes no error, only a resourceVersion gap). -/
theorem watch_queue_drops_newest (es : List ResourceEvent) :
    publishAll [] es = es.take watchChanCapacity := by
  have h := publishAll_of_le es [] (by simp)
  simpa using h

/-- C6 (amended): the duplicate-create behavior is backend-dependent.  In
`MySQLStore.Create` the claim holds: a live row with the same (name,
namespace) in the kind's table makes Create fail for every GVK except
core/v1 Node, and re-creating an existing Node succeeds as an upsert that
replaces the existing row in place (keeping its primary key and CreatedAt).
In `MemoryStore.Create`, however, there is NO Node exception: any live
object with the same identity — a Node included — makes Create fail. -/
theorem create_already_exists_behavior :
    (∀ (s : MemoryStore) (gvk : GVK) (o : KObject) (now : Nat) nsMap,
        mapLookup s.resources (MemoryStore.key gvk o.meta.ns o.meta.name) = some nsMap →
        (mapLookup nsMap o.meta.name).isSome = true →
        ∃ msg, s.Create gvk o now = .error msg) ∧
    (∀ (s : MySQLStore) (gvk : GVK) (o : KObject) (now : Nat),
        ¬ (gvk.kind = "Node" ∧ gvk.group = "" ∧ gvk.version = "v1") →
        ((mapLookup s.tables (tableName gvk)).getD []).any
          (fun r => r.name = o.meta.name ∧ r.ns = o.meta.ns) = true →
        ∃ msg, s.CreateM gvk o now = .error msg) ∧
    (∀ (s : MySQLStore) (o : KObject) (now : Nat) rows existing,
        mapLookup s.tables (tableName gvkNode) = some rows →
        rows.find? (fun r => r.name = o.meta.name) = some existing →
        ∃ s' row', s.CreateM gvkNode o now = .ok s' ∧
          row'.id = existing.id ∧ row'.createdAt = existing.createdAt ∧
          row'.name = o.meta.name ∧ row'.payload = o.payload ∧
          mapLookup s'.tables (tableName gvkNode) =
            some (replaceRowById rows existing.id row')) := by
  refine ⟨?_, ?_, ?_⟩
  · intro s gvk o now nsMap hmap hsome
    refine ⟨"resource already exists: " ++ o.meta.ns ++ "/" ++ o.meta.name, ?_⟩
    simp only [MemoryStore.Create, hmap]
    simp [hsome]
  · intro s gvk o now hgvk hdup
    refine ⟨"resource already exists: " ++ o.meta.ns ++ "/" ++ o.meta.name, ?_⟩
    simp only [MySQLStore.CreateM]
    rw [if_pos]
    exact ⟨hgvk, hdup⟩
  · intro s o now rows existing hmap hfind
    refine ⟨MySQLStore.mk (mapInsert s.tables (tableName gvkNode)
        (replaceRowById rows existing.id
          ⟨existing.id, o.meta.name, o.meta.ns, (mysqlFillMeta o.meta now).uid,
           (mysqlFillMeta o.meta now).resourceVersion, existing.createdAt, o.payload⟩))
        s.nextId,
      ⟨existing.id, o.meta.name, o.meta.ns, (mysqlFillMeta o.meta now).uid,
       (mysqlFillMeta o.meta now).resourceVersion, existing.createdAt, o.payload⟩,
      ?_, rfl, rfl, rfl, rfl, ?_⟩
    · simp only [MySQLStore.CreateM]
      rw [if_neg (fun h => h.1 ⟨rfl, rfl, rfl⟩)]
      simp only [hmap, Option.getD_some, hfind]
      rw [if_pos ⟨rfl, rfl, rfl⟩]
    · exact mapLookup_mapInsert_self _ _ _

/-- Witness for `create_already_exists_behavior`: a populated memory store,
a populated Pod table and a populated Node table, each hypothesis
discharged by computation. -/
theorem create_already_exists_behavior_witness :
    (∃ msg, cxStore1.Create gvkPod cxObjA 9 = .error msg) ∧
    (∃ msg, (MySQLStore.mk [("k8s_core_v1_pod", [⟨1, "a", "default", "u", "1", 2, "p"⟩])] 2).CreateM
        gvkPod cxObjA 9 = .error msg) ∧
    (∃ s' row',
      (MySQLStore.mk [("k8s_core_v1_node", [⟨1, "n1", "", "u", "1", 2, "old-spec"⟩])] 2).CreateM
          gvkNode cxNode 9 = .ok s' ∧
        row'.id = (DbRow.mk 1 "n1" "" "u" "1" 2 "old-spec").id ∧
        row'.createdAt = (DbRow.mk 1 "n1" "" "u" "1" 2 "old-spec").createdAt ∧
        row'.name = cxNode.meta.name ∧ row'.payload = cxNode.payload ∧
        mapLookup s'.tables (tableName gvkNode) =
          some (replaceRowById [⟨1, "n1", "", "u", "1", 2, "old-spec"⟩] 1 row')) :=
  ⟨(create_already_exists_behavior).1 cxStore1 gvkPod cxObjA 9
      [("a", ⟨⟨"a", "default", "uid-1", "1", 5⟩, "spec-a"⟩)] rfl rfl,
   (create_already_exists_behavior).2.1
      (MySQLStore.mk [("k8s_core_v1_pod", [⟨1, "a", "default", "u", "1", 2, "p"⟩])] 2)
      gvkPod cxObjA 9 (by decide) rfl,
   (create_already_exists_behavior).2.2
      (MySQLStore.mk [("k8s_core_v1_node", [⟨1, "n1", "", "u", "1", 2, "old-spec"⟩])] 2)
      cxNode 9 [⟨1, "n1", "", "u", "1", 2, "old-spec"⟩] ⟨1, "n1", "", "u", "1", 2, "old-spec"⟩
      rfl rfl⟩

/-- C6 counterexample: in the MemoryStore, re-creating an existing
cluster-scoped Node is NOT accepted as an upsert — the second create of
Node "n1" fails, contradicting the claimed exception. -/
theorem node_upsert_counterexample :
    callOk (NewMemoryStore.Create gvkNode cxNode 3) = true ∧
    callOk ((stateOf (NewMemoryStore.Create gvkNode cxNode 3)).Create gvkNode cxNode 4) = false := by
  exact ⟨rfl, rfl⟩

/-- C3 (amended): the parse in `pkg/apiserver/handler.go` does not use the
fixed singular table: it capitalizes the first letter of the chosen segment
and lowercases the rest, so every supported resource URL parses to the
capitalized PLURAL kind (pods→Pods, …); an unknown resource segment under a
known prefix is parsed the same way rather than rejected with 400 (only a
too-short path or an unknown prefix errors), and on namespaced paths the
skip loop even picks the namespace value as the kind segment.  The fixed
table pods↔Pod, …, daemonsets↔DaemonSet with rejection of unknown
resources is implemented by `kindFromResource` in the alternate handler
version of the gateway. -/
theorem parse_gvk_behavior :
    (parseGVKFromContext "/api/v1/pods" = .ok ⟨"", "v1", "Pods"⟩ ∧
     parseGVKFromContext "/api/v1/services" = .ok ⟨"", "v1", "Services"⟩ ∧
     parseGVKFromContext "/api/v1/configmaps" = .ok ⟨"", "v1", "Configmaps"⟩ ∧
     parseGVKFromContext "/api/v1/secrets" = .ok ⟨"", "v1", "Secrets"⟩ ∧
     parseGVKFromContext "/api/v1/nodes" = .ok ⟨"", "v1", "Nodes"⟩ ∧
     parseGVKFromContext "/apis/apps/v1/deployments" = .ok ⟨"apps", "v1", "Deployments"⟩ ∧
     parseGVKFromContext "/apis/apps/v1/statefulsets" = .ok ⟨"apps", "v1", "Statefulsets"⟩ ∧
     parseGVKFromContext "/apis/apps/v1/daemonsets" = .ok ⟨"apps", "v1", "Daemonsets"⟩) ∧
    (parseGVKFromContext "/api/v1/frobs" = .ok ⟨"", "v1", "Frobs"⟩ ∧
     parseGVKFromContext "/api/v1/namespaces/default/pods" = .ok ⟨"", "v1", "Default"⟩ ∧
     parseGVKFromContext "/foo/v1/pods" = .error "unknown API path prefix: foo" ∧
     parseGVKFromContext "/api/v1" = .error "invalid path format") ∧
    (kindFromResource "pods" = .ok "Pod" ∧
     kindFromResource "services" = .ok "Service" ∧
     kindFromResource "configmaps" = .ok "ConfigMap" ∧
     kindFromResource "secrets" = .ok "Secret" ∧
     kindFromResource "nodes" = .ok "Node" ∧
     kindFromResource "deployments" = .ok "Deployment" ∧
     kindFromResource "statefulsets" = .ok "StatefulSet" ∧
     kindFromResource "daemonsets" = .ok "DaemonSet" ∧
     kindFromResource "frobs" = .error "unsupported resource: frobs") := by
  exact ⟨⟨rfl, rfl, rfl, rfl, rfl, rfl, rfl, rfl⟩,
         ⟨rfl, rfl, rfl, rfl⟩,
         ⟨rfl, rfl, rfl, rfl, rfl, rfl, rfl, rfl, rfl⟩⟩

/-- C3 counterexample: for the supported resource URL `/api/v1/pods`, the
parse of `pkg/apiserver/handler.go` yields Kind "Pods", not the singular
"Pod" required by the fixed table. -/
theorem parse_kind_table_counterexample :
    parseGVKFromContext "/api/v1/pods" = .ok ⟨"", "v1", "Pods"⟩ ∧
    (GVK.mk "" "v1" "Pods").kind ≠ "Pod" := by
  exact ⟨rfl, by decide⟩

/-- C5 counterexample: with a full queue (100 buffered events), publishing a
new event leaves the queue unchanged — the new event is NOT enqueued and
the oldest is NOT dropped, contradicting the claimed drop-oldest policy. -/
theorem drop_oldest_counterexample :
    sendNonBlocking (List.replicate 100 ⟨.added, cxObjA, none⟩)
        ⟨.modified, cxObjB, none⟩ =
      List.replicate 100 ⟨.added, cxObjA, none⟩ ∧
    (⟨.modified, cxObjB, none⟩ : ResourceEvent) ∉
      sendNonBlocking (List.replicate 100 ⟨.added, cxObjA, none⟩)
        ⟨.modified, cxObjB, none⟩ ∧
    (sendNonBlocking (List.replicate 100 ⟨.added, cxObjA, none⟩)
        ⟨.modified, cxObjB, none⟩).head? =
      some ⟨.added, cxObjA, none⟩ := by
  refine ⟨rfl, by decide, rfl⟩

/-- C8: the runtime controller's "this node" filter does not exist.  The
decision whether to act on a Pod is insensitive to the assigned node name
(any two non-empty node names give the same decision — the configured
NODE_NAME is not an input of the filter at all), and the controller starts
the container of a Pod assigned to a DIFFERENT node ("node-2"), updating it
to Running. -/
theorem runtime_node_filter_ignores_node_name :
    (∀ (pod : PodC) (n1 n2 : String), n1 ≠ "" → n2 ≠ "" →
        runtimeShouldHandle { pod with nodeName := n1 } =
          runtimeShouldHandle { pod with nodeName := n2 }) ∧
    runtimeProcessEvent false .added cxPodOtherNode 10 =
      some ⟨"p1", "default", "node-2", "Running",
        [⟨"Ready", "True", "ContainersReady", "All containers are ready", 10⟩],
        [⟨"c1", true, true, false⟩], ["c1"]⟩ := by
  constructor
  · intro pod n1 n2 h1 h2
    simp [runtimeShouldHandle, h1, h2]
  · rfl

/-- Witness for `runtime_node_filter_ignores_node_name`: two concrete
non-empty node names give the same decision on a concrete Pod. -/
theorem runtime_node_filter_ignores_node_name_witness :
    runtimeShouldHandle { cxPodOtherNode with nodeName := "node-1" } =
      runtimeShouldHandle { cxPodOtherNode with nodeName := "node-2" } :=
  runtime_node_filter_ignores_node_name.1 cxPodOtherNode "node-1" "node-2"
    (by decide) (by decide)

theorem findLastIdxAux_spec (t : String) :
    ∀ (l : List PodCondition) (base j : Nat), findLastIdxAux t l base = some j →
      base ≤ j ∧ ∃ c, l[j - base]? = some c ∧ c.ctype = t := by
  intro l
  induction l with
  | nil => intro base j h; simp [findLastIdxAux] at h
  | cons c rest ih =>
    intro base j h
    rw [findLastIdxAux] at h
    split at h
    · rename_i j'' heq
      simp only [Option.some.injEq] at h
      subst h
      obtain ⟨hle, cc, hget, hty⟩ := ih (base + 1) j'' heq
      refine ⟨by omega, cc, ?_, hty⟩
      have harith : j'' - base = (j'' - (base + 1)) + 1 := by omega
      rw [harith]
      simpa using hget
    · split at h
      · rename_i hty
        simp only [Option.some.injEq] at h
        subst h
        exact ⟨le_refl base, c, by simp, hty⟩
      · cases h

theorem findLastIdx_spec (conds : List PodCondition) (t : String) (i : Nat)
    (h : findLastIdx conds t = some i) :
    ∃ c, conds[i]? = some c ∧ c.ctype = t := by
  obtain ⟨-, c, hget, hty⟩ := findLastIdxAux_spec t conds 0 i h
  exact ⟨c, by simpa using hget, hty⟩

theorem condBlock_preserves_other (conds : List PodCondition) (idx? : Option Nat)
    (tb st rs msg : String) (now : Nat) (j : Nat) (c' : PodCondition)
    (hj : conds[j]? = some c') (hne : c'.ctype ≠ tb)
    (hidx : ∀ i, idx? = some i → ∃ cc, conds[i]? = some cc ∧ cc.ctype = tb) :
    (condBlock conds idx? tb st rs msg now)[j]? = some c' := by
  cases idx? with
  | none =>
    simp only [condBlock]
    rw [List.getElem?_append]
    simp [(List.getElem?_eq_some_iff.mp hj).1, hj]
  | some i =>
    obtain ⟨cc, hcc, hty⟩ := hidx i rfl
    simp only [condBlock, hcc]
    split
    · have hij : i ≠ j := by
        intro hh
        subst hh
        rw [hcc] at hj
        cases hj
        exact hne hty
      rw [List.getElem?_set_ne hij]
      exact hj
    · exact hj

theorem condBlock_sets (conds : List PodCondition) (i : Nat) (c : PodCondition)
    (tb st rs msg : String) (now : Nat)
    (hget : conds[i]? = some c) (hst : c.status ≠ "True") :
    (condBlock conds (some i) tb st rs msg now)[i]? =
      some ⟨c.ctype, st, rs, msg, now⟩ := by
  simp only [condBlock, hget]
  rw [if_pos hst]
  simp [List.getElem?_set_self, (List.getElem?_eq_some_iff.mp hget).1]

theorem condBlock_skips_true (conds : List PodCondition) (i : Nat)
    (c : PodCondition) (tb st rs msg : String) (now : Nat)
    (hget : conds[i]? = some c) (hst : c.status = "True") :
    condBlock conds (some i) tb st rs msg now = conds := by
  simp [condBlock, hget, hst]

/-- C9 (amended): an already-"True" condition is left untouched by a
reconcile (its LastTransitionTime is preserved), but a PodReady condition
that is NOT "True" is overwritten with `LastTransitionTime := now` on
EVERY reconcile — even when its status does not flip: a Pod whose PodReady
stays False gets that condition's LastTransitionTime refreshed anyway. -/
theorem pod_ready_transition_time (pod : PodC) (now : Nat) (i : Nat)
    (c : PodCondition)
    (hidx : findLastIdx pod.conditions "Ready" = some i)
    (hget : pod.conditions[i]? = some c) :
    (c.status = "True" →
      (updatePodConditions pod now).conditions[i]? = some c) ∧
    (c.status ≠ "True" →
      ¬ (pod.containerStatuses.all (fun st => st.ready) = true ∧
          pod.phase = "Running") →
      (updatePodConditions pod now).conditions[i]? =
        some ⟨c.ctype, "False", "ContainersNotReady",
          "Not all containers are ready", now⟩) := by
  obtain ⟨c0, hget0, hty0⟩ := findLastIdx_spec pod.conditions "Ready" i hidx
  have hcc : c0 = c := by rw [hget0] at hget; cases hget; rfl
  subst hcc
  -- the Ready element survives the PodScheduled and PodInitialized blocks
  have hsurvive : ∀ conds1 conds2,
      conds1 = (if pod.nodeName ≠ "" then
        condBlock pod.conditions (findLastIdx pod.conditions "PodScheduled")
          "PodScheduled" "True" "Scheduled"
          ("Successfully assigned " ++ pod.ns ++ "/" ++ pod.name ++ " to " ++
            pod.nodeName) now
        else pod.conditions) →
      conds2 = (if pod.nodeName ≠ "" then
        condBlock conds1 (findLastIdx pod.conditions "Initialized")
          "Initialized" "True" "Initialized" "Pod has been initialized" now
        else conds1) →
      conds2[i]? = some c0 := by
    intro conds1 conds2 h1 h2
    have hc1 : conds1[i]? = some c0 := by
      subst h1
      split
      · refine condBlock_preserves_other _ _ _ _ _ _ _ _ _ hget0
          (by rw [hty0]; decide) ?_
        intro i1 hi1
        obtain ⟨cc, hcc, hccty⟩ :=
          findLastIdx_spec pod.conditions "PodScheduled" i1 hi1
        exact ⟨cc, hcc, hccty⟩
      · exact hget0
    have hinit : ∀ i2, findLastIdx pod.conditions "Initialized" = some i2 →
        ∃ cc, conds1[i2]? = some cc ∧ cc.ctype = "Initialized" := by
      intro i2 hi2
      obtain ⟨cc, hcc, hccty⟩ :=
        findLastIdx_spec pod.conditions "Initialized" i2 hi2
      refine ⟨cc, ?_, hccty⟩
      subst h1
      split
      · refine condBlock_preserves_other _ _ _ _ _ _ _ _ _ hcc
          (by rw [hccty]; decide) ?_
        intro i1 hi1
        exact findLastIdx_spec pod.conditions "PodScheduled" i1 hi1
      · exact hcc
    subst h2
    split
    · exact condBlock_preserves_other _ _ _ _ _ _ _ _ _ hc1
        (by rw [hty0]; decide) hinit
    · exact hc1
  have hc2 := hsurvive _ _ rfl rfl
  constructor
  · intro htrue
    simp only [updatePodConditions, hidx]
    split
    · rw [condBlock_skips_true _ _ _ _ _ _ _ _ hc2 htrue]
      exact hc2
    · rw [condBlock_skips_true _ _ _ _ _ _ _ _ hc2 htrue]
      exact hc2
  · intro hfalse hnotready
    simp only [updatePodConditions, hidx]
    rw [if_neg hnotready]
    exact condBlock_sets _ _ _ _ _ _ _ _ hc2 hfalse

/-- Witness for `pod_ready_transition_time`: the concrete Pod above, both
branches exercised (the "True" branch on a variant whose Ready condition is
already True). -/
theorem pod_ready_transition_time_witness :
    ((⟨"Ready", "True", "ContainersReady", "ok", 5⟩ : PodCondition).status = "True" →
      (updatePodConditions
        ⟨"p1", "default", "", "Running",
         [⟨"Ready", "True", "ContainersReady", "ok", 5⟩],
         [⟨"c1", true, true, false⟩], ["c1"]⟩ 10).conditions[0]? =
        some ⟨"Ready", "True", "ContainersReady", "ok", 5⟩) ∧
    ((⟨"Ready", "False", "NotReady", "Pod is not ready", 5⟩ : PodCondition).status ≠ "True" →
      ¬ (cxPodNotReady.containerStatuses.all (fun st => st.ready) = true ∧
          cxPodNotReady.phase = "Running") →
      (updatePodConditions cxPodNotReady 10).conditions[0]? =
        some ⟨"Ready", "False", "ContainersNotReady",
          "Not all containers are ready", 10⟩) :=
  ⟨(pod_ready_transition_time
      ⟨"p1", "default", "", "Running",
       [⟨"Ready", "True", "ContainersReady", "ok", 5⟩],
       [⟨"c1", true, true, false⟩], ["c1"]⟩ 10 0
      ⟨"Ready", "True", "ContainersReady", "ok", 5⟩ rfl rfl).1,
   (pod_ready_transition_time cxPodNotReady 10 0
      ⟨"Ready", "False", "NotReady", "Pod is not ready", 5⟩ rfl rfl).2⟩

/-- C9 counterexample: reconciling `cxPodNotReady` at time 10 leaves the
PodReady status at "False" (no flip) yet rewrites its LastTransitionTime
from 5 to 10 — the transition time is NOT preserved. -/
theorem condition_transition_time_counterexample :
    (updatePodConditions cxPodNotReady 10).conditions =
      [⟨"Ready", "False", "ContainersNotReady",
        "Not all containers are ready", 10⟩] ∧
    (updatePodConditions cxPodNotReady 10).conditions[0]?.map
        (fun c => c.status) =
      cxPodNotReady.conditions[0]?.map (fun c => c.status) ∧
    (updatePodConditions cxPodNotReady 10).conditions[0]?.map
        (fun c => c.lastTransitionTime) ≠
      cxPodNotReady.conditions[0]?.map (fun c => c.lastTransitionTime) := by
  exact ⟨rfl, rfl, by decide⟩

/-- C10: whenever `schedulePod` succeeds, the written-back Pod's entire
conditions list is the single `PodScheduled=True/Scheduled` condition for
the selected (first Ready) node — every previously present condition
(e.g. PodReady, PodInitialized) is absent. -/
theorem scheduler_replaces_conditions (nodes : List NodeC) (pod : PodC)
    (now : Nat) (pod' : PodC) (h : schedulePod nodes pod now = .ok pod') :
    ∃ node, nodes.find? (fun n => isNodeReady n) = some node ∧
      pod'.conditions = [⟨"PodScheduled", "True", "Scheduled",
        "Successfully assigned " ++ pod.ns ++ "/" ++ pod.name ++ " to " ++
          node.name, now⟩] ∧
      pod'.nodeName = node.name ∧ pod'.phase = "Pending" ∧
      ∀ c ∈ pod'.conditions, c.ctype = "PodScheduled" := by
  simp only [schedulePod] at h
  split at h
  · simp at h
  · split at h
    · simp at h
    · rename_i node hfind
      simp only [Except.ok.injEq] at h
      subst h
      exact ⟨node, hfind, rfl, rfl, rfl, by simp⟩

/-- Witness for `scheduler_replaces_conditions`: scheduling a Pod that
carries PodInitialized and PodReady conditions onto a Ready node wipes
them, leaving only PodScheduled. -/
theorem scheduler_replaces_conditions_witness :
    ∃ node, [NodeC.mk "n1" [⟨"Ready", "True"⟩]].find?
        (fun n => isNodeReady n) = some node ∧
      (PodC.mk "p1" "default" "n1" "Pending"
        [⟨"PodScheduled", "True", "Scheduled",
          "Successfully assigned default/p1 to n1", 10⟩] [] ["c1"]).conditions =
        [⟨"PodScheduled", "True", "Scheduled",
          "Successfully assigned " ++ "default" ++ "/" ++ "p1" ++ " to " ++
            node.name, 10⟩] ∧
      (PodC.mk "p1" "default" "n1" "Pending"
        [⟨"PodScheduled", "True", "Scheduled",
          "Successfully assigned default/p1 to n1", 10⟩] [] ["c1"]).nodeName =
        node.name ∧
      (PodC.mk "p1" "default" "n1" "Pending"
        [⟨"PodScheduled", "True", "Scheduled",
          "Successfully assigned default/p1 to n1", 10⟩] [] ["c1"]).phase =
        "Pending" ∧
      ∀ c ∈ (PodC.mk "p1" "default" "n1" "Pending"
        [⟨"PodScheduled", "True", "Scheduled",
          "Successfully assigned default/p1 to n1", 10⟩] [] ["c1"]).conditions,
        c.ctype = "PodScheduled" :=
  scheduler_replaces_conditions [⟨"n1", [⟨"Ready", "True"⟩]⟩]
    ⟨"p1", "default", "", "Pending",
     [⟨"Initialized", "True", "Initialized", "Pod has been initialized", 3⟩,
      ⟨"Ready", "False", "NotReady", "Pod is not ready", 4⟩],
     [], ["c1"]⟩ 10
    ⟨"p1", "default", "n1", "Pending",
     [⟨"PodScheduled", "True", "Scheduled",
       "Successfully assigned default/p1 to n1", 10⟩], [], ["c1"]⟩ rfl

theorem keyMem_of_mem (m : List (String × Json)) (k : String) (v : Json)
    (hmem : (k, v) ∈ m) : keyMem k m = true := by
  simp only [keyMem, List.any_eq_true]
  exact ⟨(k, v), hmem, by simp⟩

theorem mapLookup_none_of_keyMem_false (m : List (String × Json)) (k : String)
    (h : keyMem k m = false) : mapLookup m k = none := by
  induction m with
  | nil => rfl
  | cons q rest ih =>
    obtain ⟨k', v'⟩ := q
    simp only [keyMem, List.any_cons, Bool.or_eq_false_iff] at h
    obtain ⟨h1, h2⟩ := h
    have hne : k' ≠ k := by simpa using h1
    simp only [mapLookup, if_neg hne]
    exact ih h2

theorem keyMem_mapInsert (m : List (String × Json)) (j k : String) (v : Json) :
    keyMem j (mapInsert m k v) = (keyMem j m || (k == j)) := by
  induction m with
  | nil => simp [mapInsert, keyMem]
  | cons q rest ih =>
    obtain ⟨k', v'⟩ := q
    by_cases hk : k' = k
    · subst hk
      have hins : mapInsert ((k', v') :: rest) k' v = (k', v) :: rest := by
        simp [mapInsert]
      rw [hins]
      simp only [keyMem, List.any_cons]
      cases hkj : (k' == j) <;> cases hrest : rest.any (fun q => q.1 == j) <;>
        simp [hkj, hrest]
    · simp only [mapInsert, if_neg hk, keyMem, List.any_cons]
      simp only [keyMem] at ih
      rw [ih]
      cases (k' == j) <;> cases rest.any (fun q => q.1 == j) <;>
        cases (k == j) <;> rfl

theorem keyMem_mapErase_imp (m : List (String × Json)) (j k : String)
    (h : keyMem j (mapErase m k) = true) : keyMem j m = true := by
  induction m with
  | nil => simpa [mapErase] using h
  | cons q rest ih =>
    obtain ⟨k', v'⟩ := q
    by_cases hk : k' = k
    · subst hk
      simp only [mapErase, if_pos rfl] at h
      simp [keyMem, List.any_cons]
      right
      simpa [keyMem] using h
    · simp only [mapErase, if_neg hk, keyMem, List.any_cons] at h
      simp only [keyMem, List.any_cons]
      rcases Bool.or_eq_true_iff.mp h with h1 | h2
      · simp [h1]
      · have := ih (by simpa [keyMem] using h2)
        simp [keyMem] at this
        simp [this]

theorem keysNodupJ_mapInsert (m : List (String × Json)) (k : String) (v : Json)
    (h : keysNodupJ m = true) : keysNodupJ (mapInsert m k v) = true := by
  induction m with
  | nil => simp [mapInsert, keysNodupJ, keyMem]
  | cons q rest ih =>
    obtain ⟨k', v'⟩ := q
    simp only [keysNodupJ, Bool.and_eq_true, Bool.not_eq_true'] at h
    obtain ⟨h1, h2⟩ := h
    by_cases hk : k' = k
    · subst hk
      simp only [mapInsert, if_pos rfl, keysNodupJ, Bool.and_eq_true,
        Bool.not_eq_true']
      exact ⟨h1, h2⟩
    · simp only [mapInsert, if_neg hk, keysNodupJ, Bool.and_eq_true,
        Bool.not_eq_true']
      refine ⟨?_, ih h2⟩
      rw [keyMem_mapInsert]
      have : (k == k') = false := by simpa using (Ne.symm hk)
      simp [h1, this]

theorem keysNodupJ_mapErase (m : List (String × Json)) (k : String)
    (h : keysNodupJ m = true) : keysNodupJ (mapErase m k) = true := by
  induction m with
  | nil => simpa [mapErase] using h
  | cons q rest ih =>
    obtain ⟨k', v'⟩ := q
    simp only [keysNodupJ, Bool.and_eq_true, Bool.not_eq_true'] at h
    obtain ⟨h1, h2⟩ := h
    by_cases hk : k' = k
    · subst hk
      simpa [mapErase] using h2
    · simp only [mapErase, if_neg hk, keysNodupJ, Bool.and_eq_true,
        Bool.not_eq_true']
      refine ⟨?_, ih h2⟩
      cases hh : keyMem k' (mapErase rest k)
      · rfl
      · exact absurd (keyMem_mapErase_imp rest k' k hh) (by simp [h1])

theorem mapLookup_mapErase_self_of_nodup (m : List (String × Json)) (k : String)
    (h : keysNodupJ m = true) : mapLookup (mapErase m k) k = none := by
  induction m with
  | nil => rfl
  | cons q rest ih =>
    obtain ⟨k', v'⟩ := q
    simp only [keysNodupJ, Bool.and_eq_true, Bool.not_eq_true'] at h
    obtain ⟨h1, h2⟩ := h
    by_cases hk : k' = k
    · subst hk
      simp only [mapErase, if_pos rfl]
      exact mapLookup_none_of_keyMem_false rest k' h1
    · simp only [mapErase, if_neg hk, mapLookup, if_neg hk]
      exact ih h2

theorem mapLookup_of_mem_nodup (m : List (String × Json)) (k : String) (v : Json)
    (hnd : keysNodupJ m = true) (hmem : (k, v) ∈ m) : mapLookup m k = some v := by
  induction m with
  | nil => cases hmem
  | cons q rest ih =>
    obtain ⟨k', v'⟩ := q
    simp only [keysNodupJ, Bool.and_eq_true, Bool.not_eq_true'] at hnd
    obtain ⟨h1, h2⟩ := hnd
    rcases List.mem_cons.mp hmem with heq | htail
    · cases heq
      simp [mapLookup]
    · by_cases hk : k' = k
      · subst hk
        exact absurd (keyMem_of_mem rest k' v htail) (by simp [h1])
      · simp only [mapLookup, if_neg hk]
        exact ih h2 htail

theorem strict_imp_wf :
    ∀ (n : Nat) (v : Json), sizeOf v < n → Json.strictNoNull v = true →
      Json.wfJson v = true := by
  intro n
  induction n with
  | zero => intro v h; omega
  | succ n ih =>
    intro v hsz hstrict
    cases v with
    | null => simp [Json.strictNoNull] at hstrict
    | bool b => rfl
    | num i => rfl
    | str s => rfl
    | arr xs => rfl
    | obj fields =>
      simp only [Json.strictNoNull, Bool.and_eq_true] at hstrict
      obtain ⟨hnd, hsf⟩ := hstrict
      simp only [Json.wfJson, Bool.and_eq_true]
      refine ⟨hnd, ?_⟩
      clear hnd
      induction fields with
      | nil => rfl
      | cons q rest ihf =>
        obtain ⟨k, w⟩ := q
        simp only [strictFields, Bool.and_eq_true] at hsf
        simp only [wfFields, Bool.and_eq_true]
        have hszw : sizeOf w < n := by
          have : sizeOf w < sizeOf (Json.obj ((k, w) :: rest)) := by
            simp
            omega
          omega
        refine ⟨ih w hszw hsf.1, ?_⟩
        have hszrest : sizeOf (Json.obj rest) < Nat.succ n := by
          have : sizeOf (Json.obj rest) < sizeOf (Json.obj ((k, w) :: rest)) := by
            simp
          omega
        exact ihf hszrest hsf.2

theorem wfJson_of_lookup (m : List (String × Json)) (k : String) (v : Json)
    (hm : wfFields m = true) (hl : mapLookup m k = some v) :
    Json.wfJson v = true := by
  induction m with
  | nil => simp [mapLookup] at hl
  | cons q rest ih =>
    obtain ⟨k', v'⟩ := q
    simp only [wfFields, Bool.and_eq_true] at hm
    by_cases hk : k' = k
    · subst hk
      simp [mapLookup] at hl
      subst hl
      exact hm.1
    · simp only [mapLookup, if_neg hk] at hl
      exact ih hm.2 hl

theorem wfFields_mapInsert (m : List (String × Json)) (k : String) (v : Json)
    (hm : wfFields m = true) (hv : Json.wfJson v = true) :
    wfFields (mapInsert m k v) = true := by
  induction m with
  | nil => simp [mapInsert, wfFields, hv]
  | cons q rest ih =>
    obtain ⟨k', v'⟩ := q
    simp only [wfFields, Bool.and_eq_true] at hm
    by_cases hk : k' = k
    · subst hk
      simp only [mapInsert, if_pos rfl, wfFields, Bool.and_eq_true]
      exact ⟨hv, hm.2⟩
    · simp only [mapInsert, if_neg hk, wfFields, Bool.and_eq_true]
      exact ⟨hm.1, ih hm.2⟩

theorem wfFields_mapErase (m : List (String × Json)) (k : String)
    (hm : wfFields m = true) : wfFields (mapErase m k) = true := by
  induction m with
  | nil => simpa [mapErase] using hm
  | cons q rest ih =>
    obtain ⟨k', v'⟩ := q
    simp only [wfFields, Bool.and_eq_true] at hm
    by_cases hk : k' = k
    · subst hk
      simpa [mapErase] using hm.2
    · simp only [mapErase, if_neg hk, wfFields, Bool.and_eq_true]
      exact ⟨hm.1, ih hm.2⟩

theorem fieldsWf_mapInsert (m : List (String × Json)) (k : String) (v : Json)
    (hm : fieldsWf m = true) (hv : Json.wfJson v = true) :
    fieldsWf (mapInsert m k v) = true := by
  simp only [fieldsWf, Bool.and_eq_true] at hm ⊢
  exact ⟨keysNodupJ_mapInsert m k v hm.1, wfFields_mapInsert m k v hm.2 hv⟩

theorem fieldsWf_mapErase (m : List (String × Json)) (k : String)
    (hm : fieldsWf m = true) : fieldsWf (mapErase m k) = true := by
  simp only [fieldsWf, Bool.and_eq_true] at hm ⊢
  exact ⟨keysNodupJ_mapErase m k hm.1, wfFields_mapErase m k hm.2⟩

theorem patchVals_of_strictFields (l : List (String × Json))
    (h : strictFields l = true) : patchVals l = true := by
  induction l with
  | nil => rfl
  | cons q rest ih =>
    obtain ⟨k, v⟩ := q
    simp only [strictFields, Bool.and_eq_true] at h
    simp only [patchVals, Bool.and_eq_true]
    refine ⟨?_, ih h.2⟩
    cases v <;> simp_all [Json.strictNoNull]

theorem patchOk_of_strictObj (m : List (String × Json))
    (h : Json.strictNoNull (Json.obj m) = true) : patchOk m = true := by
  simp only [Json.strictNoNull, Bool.and_eq_true] at h
  simp only [patchOk, Bool.and_eq_true]
  exact ⟨h.1, patchVals_of_strictFields m h.2⟩

theorem mergePatch_nil (d : List (String × Json)) : mergePatch d [] = d := by
  simp [mergePatch]

theorem mergePatch_cons (d : List (String × Json)) (k : String) (v : Json)
    (rest : List (String × Json)) :
    mergePatch d ((k, v) :: rest) = mergePatch (applyEntry d k v) rest := by
  simp [mergePatch]

theorem applyEntry_null (d : List (String × Json)) (k : String) :
    applyEntry d k .null = mapErase d k := by
  simp [applyEntry]

theorem applyEntry_obj (d : List (String × Json)) (k : String)
    (m : List (String × Json)) :
    applyEntry d k (.obj m) =
      mapInsert d k (.obj (mergeIntoTarget (mapLookup d k) m)) := by
  simp [applyEntry]

theorem mergeIntoTarget_obj (dm m : List (String × Json)) :
    mergeIntoTarget (some (.obj dm)) m = mergePatch dm m := by
  simp [mergeIntoTarget]

theorem wfJson_obj (l : List (String × Json)) :
    Json.wfJson (.obj l) = fieldsWf l := by
  simp [Json.wfJson, fieldsWf]

theorem mapLookup_applyEntry_ne (d : List (String × Json)) (j k : String)
    (v : Json) (hjk : j ≠ k) :
    mapLookup (applyEntry d j v) k = mapLookup d k := by
  cases v with
  | null =>
    rw [applyEntry_null]
    exact mapLookup_mapErase_ne d k j hjk
  | obj m =>
    rw [applyEntry_obj]
    exact mapLookup_mapInsert_ne d k j _ hjk
  | bool b =>
    simp only [applyEntry]
    exact mapLookup_mapInsert_ne d k j _ hjk
  | num i =>
    simp only [applyEntry]
    exact mapLookup_mapInsert_ne d k j _ hjk
  | str s =>
    simp only [applyEntry]
    exact mapLookup_mapInsert_ne d k j _ hjk
  | arr xs =>
    simp only [applyEntry]
    exact mapLookup_mapInsert_ne d k j _ hjk

theorem mapLookup_mergePatch_not_mem (p : List (String × Json)) :
    ∀ (d : List (String × Json)) (k : String), keyMem k p = false →
      mapLookup (mergePatch d p) k = mapLookup d k := by
  induction p with
  | nil => intro d k _; rw [mergePatch_nil]
  | cons q rest ih =>
    obtain ⟨j, v⟩ := q
    intro d k h
    simp only [keyMem, List.any_cons, Bool.or_eq_false_iff] at h
    obtain ⟨h1, h2⟩ := h
    have hjk : j ≠ k := by simpa using h1
    rw [mergePatch_cons, ih (applyEntry d j v) k (by simpa [keyMem] using h2)]
    exact mapLookup_applyEntry_ne d j k v hjk

theorem sizeOf_rest_lt (k : String) (v : Json) (rest : List (String × Json)) :
    sizeOf rest < sizeOf ((k, v) :: rest) := by
  have h := List.cons.sizeOf_spec (k, v) rest
  omega

theorem sizeOf_obj_arg_lt (k : String) (m rest : List (String × Json)) :
    sizeOf m < sizeOf ((k, Json.obj m) :: rest) := by
  have h1 := List.cons.sizeOf_spec (k, Json.obj m) rest
  have h2 := Prod.mk.sizeOf_spec k (Json.obj m)
  have h3 := Json.obj.sizeOf_spec m
  omega

theorem patchOk_cons_elim (k : String) (v : Json) (rest : List (String × Json))
    (h : patchOk ((k, v) :: rest) = true) :
    keyMem k rest = false ∧ patchOk rest = true ∧
      (v = Json.null ∨ Json.strictNoNull v = true) := by
  simp only [patchOk, keysNodupJ, patchVals, Bool.and_eq_true,
    Bool.not_eq_true'] at h
  refine ⟨h.1.1, ?_, ?_⟩
  · simp only [patchOk, Bool.and_eq_true]
    exact ⟨h.1.2, h.2.2⟩
  · cases v with
    | null => exact Or.inl rfl
    | bool b => exact Or.inr h.2.1
    | num i => exact Or.inr h.2.1
    | str t => exact Or.inr h.2.1
    | arr xs => exact Or.inr h.2.1
    | obj m => exact Or.inr h.2.1

theorem mergeIntoTarget_not_obj (o : Option Json) (m : List (String × Json))
    (h : ∀ dm, o ≠ some (Json.obj dm)) : mergeIntoTarget o m = m := by
  cases o with
  | none => simp [mergeIntoTarget]
  | some w =>
    cases w with
    | obj dm => exact absurd rfl (h dm)
    | null => simp [mergeIntoTarget]
    | bool b => simp [mergeIntoTarget]
    | num i => simp [mergeIntoTarget]
    | str t => simp [mergeIntoTarget]
    | arr xs => simp [mergeIntoTarget]

theorem wfJson_obj_of_strict (m : List (String × Json))
    (h : Json.strictNoNull (Json.obj m) = true) : fieldsWf m = true := by
  have := strict_imp_wf (sizeOf (Json.obj m) + 1) (Json.obj m) (by omega) h
  rwa [wfJson_obj] at this

theorem mergePatch_wf :
    ∀ (n : Nat) (p : List (String × Json)), sizeOf p < n →
      ∀ d, patchOk p = true → fieldsWf d = true →
        fieldsWf (mergePatch d p) = true := by
  intro n
  induction n with
  | zero => intro p h; omega
  | succ n ih =>
    intro p hsz d hp hd
    cases p with
    | nil => rwa [mergePatch_nil]
    | cons q rest =>
      obtain ⟨k, v⟩ := q
      obtain ⟨hkm, hrest, hvok⟩ := patchOk_cons_elim k v rest hp
      have hszrest : sizeOf rest < n := by
        have := sizeOf_rest_lt k v rest
        omega
      rw [mergePatch_cons]
      apply ih rest hszrest _ hrest
      cases v with
      | null =>
        rw [applyEntry_null]
        exact fieldsWf_mapErase d k hd
      | obj m =>
        have hstrict : Json.strictNoNull (Json.obj m) = true := by
          rcases hvok with h | h
          · exact absurd h (by simp)
          · exact h
        rw [applyEntry_obj]
        apply fieldsWf_mapInsert d k _ hd
        have hpm : patchOk m = true := patchOk_of_strictObj m hstrict
        have hszm : sizeOf m < n := by
          have := sizeOf_obj_arg_lt k m rest
          omega
        rw [wfJson_obj]
        cases hdk : mapLookup d k with
        | none =>
          rw [mergeIntoTarget_not_obj none m (by simp)]
          exact wfJson_obj_of_strict m hstrict
        | some w =>
          have hdwf : wfFields d = true := by
            simp only [fieldsWf, Bool.and_eq_true] at hd
            exact hd.2
          cases w with
          | obj dm =>
            rw [mergeIntoTarget_obj]
            have hdmwf : fieldsWf dm = true := by
              have := wfJson_of_lookup d k _ hdwf hdk
              rwa [wfJson_obj] at this
            exact ih m hszm dm hpm hdmwf
          | null =>
            rw [mergeIntoTarget_not_obj _ m (by simp)]
            exact wfJson_obj_of_strict m hstrict
          | bool b =>
            rw [mergeIntoTarget_not_obj _ m (by simp)]
            exact wfJson_obj_of_strict m hstrict
          | num i =>
            rw [mergeIntoTarget_not_obj _ m (by simp)]
            exact wfJson_obj_of_strict m hstrict
          | str t =>
            rw [mergeIntoTarget_not_obj _ m (by simp)]
            exact wfJson_obj_of_strict m hstrict
          | arr xs =>
            rw [mergeIntoTarget_not_obj _ m (by simp)]
            exact wfJson_obj_of_strict m hstrict
      | bool b =>
        simp only [applyEntry]
        exact fieldsWf_mapInsert d k _ hd rfl
      | num i =>
        simp only [applyEntry]
        exact fieldsWf_mapInsert d k _ hd rfl
      | str t =>
        simp only [applyEntry]
        exact fieldsWf_mapInsert d k _ hd rfl
      | arr xs =>
        simp only [applyEntry]
        exact fieldsWf_mapInsert d k _ hd rfl

theorem applyEntry_bool (d : List (String × Json)) (k : String) (b : Bool) :
    applyEntry d k (.bool b) = mapInsert d k (.bool b) := by
  simp [applyEntry]

theorem applyEntry_num (d : List (String × Json)) (k : String) (i : Int) :
    applyEntry d k (.num i) = mapInsert d k (.num i) := by
  simp [applyEntry]

theorem applyEntry_str (d : List (String × Json)) (k : String) (t : String) :
    applyEntry d k (.str t) = mapInsert d k (.str t) := by
  simp [applyEntry]

theorem applyEntry_arr (d : List (String × Json)) (k : String) (xs : List Json) :
    applyEntry d k (.arr xs) = mapInsert d k (.arr xs) := by
  simp [applyEntry]

theorem strictFields_cons_elim (k : String) (v : Json)
    (rest : List (String × Json)) (h : strictFields ((k, v) :: rest) = true) :
    Json.strictNoNull v = true ∧ strictFields rest = true := by
  simp only [strictFields, Bool.and_eq_true] at h
  exact h

theorem strictObj_components (m : List (String × Json))
    (h : Json.strictNoNull (Json.obj m) = true) :
    keysNodupJ m = true ∧ strictFields m = true := by
  simp only [Json.strictNoNull, Bool.and_eq_true] at h
  exact h

theorem mergePatch_noop :
    ∀ (n : Nat) (p : List (String × Json)), sizeOf p < n →
      ∀ d, strictFields p = true →
        (∀ k v, (k, v) ∈ p → mapLookup d k = some v) →
        mergePatch d p = d := by
  intro n
  induction n with
  | zero => intro p h; omega
  | succ n ih =>
    intro p hsz d hsf hmem
    cases p with
    | nil => exact mergePatch_nil d
    | cons q rest =>
      obtain ⟨k, v⟩ := q
      obtain ⟨hv, hsfrest⟩ := strictFields_cons_elim k v rest hsf
      have hszrest : sizeOf rest < n := by
        have := sizeOf_rest_lt k v rest
        omega
      have hlk : mapLookup d k = some v := hmem k v (List.mem_cons_self _ _)
      have happ : applyEntry d k v = d := by
        cases v with
        | null => simp [Json.strictNoNull] at hv
        | obj m =>
          obtain ⟨hndm, hsfm⟩ := strictObj_components m hv
          have hszm : sizeOf m < n := by
            have := sizeOf_obj_arg_lt k m rest
            omega
          have hmm : mergePatch m m = m :=
            ih m hszm m hsfm
              (fun j w hjw => mapLookup_of_mem_nodup m j w hndm hjw)
          rw [applyEntry_obj, hlk, mergeIntoTarget_obj, hmm]
          exact mapInsert_of_mapLookup_eq d k _ hlk
        | bool b =>
          rw [applyEntry_bool]
          exact mapInsert_of_mapLookup_eq d k _ hlk
        | num i =>
          rw [applyEntry_num]
          exact mapInsert_of_mapLookup_eq d k _ hlk
        | str t =>
          rw [applyEntry_str]
          exact mapInsert_of_mapLookup_eq d k _ hlk
        | arr xs =>
          rw [applyEntry_arr]
          exact mapInsert_of_mapLookup_eq d k _ hlk
      rw [mergePatch_cons, happ]
      exact ih rest hszrest d hsfrest
        (fun j w hjw => hmem j w (List.mem_cons_of_mem _ hjw))

theorem mergePatch_idem_aux :
    ∀ (n : Nat) (p : List (String × Json)), sizeOf p < n →
      ∀ d, patchOk p = true → fieldsWf d = true →
        mergePatch (mergePatch d p) p = mergePatch d p := by
  intro n
  induction n with
  | zero => intro p h; omega
  | succ n ih =>
    intro p hsz d hp hd
    cases p with
    | nil => rw [mergePatch_nil]
    | cons q rest =>
      obtain ⟨k, v⟩ := q
      obtain ⟨hkm, hrest, hvok⟩ := patchOk_cons_elim k v rest hp
      have hszrest : sizeOf rest < n := by
        have := sizeOf_rest_lt k v rest
        omega
      have hdnd : keysNodupJ d = true := by
        simp only [fieldsWf, Bool.and_eq_true] at hd
        exact hd.1
      have hdwf : wfFields d = true := by
        simp only [fieldsWf, Bool.and_eq_true] at hd
        exact hd.2
      have hponev : patchOk [(k, v)] = true := by
        have hnd1 : keysNodupJ [(k, v)] = true := by
          simp [keysNodupJ, keyMem]
        have hpv1 : patchVals [(k, v)] = true := by
          rcases hvok with h | h
          · subst h
            simp [patchVals]
          · cases v <;> simp_all [patchVals]
        simp only [patchOk, Bool.and_eq_true]
        exact ⟨hnd1, hpv1⟩
      have hdapp : fieldsWf (applyEntry d k v) = true := by
        have h1 := mergePatch_wf (sizeOf [(k, v)] + 1) [(k, v)] (by omega) d
          hponev hd
        rwa [mergePatch_cons, mergePatch_nil] at h1
      have hlookX : mapLookup (mergePatch (applyEntry d k v) rest) k =
          mapLookup (applyEntry d k v) k :=
        mapLookup_mergePatch_not_mem rest (applyEntry d k v) k hkm
      have hfix : applyEntry (mergePatch (applyEntry d k v) rest) k v =
          mergePatch (applyEntry d k v) rest := by
        cases v with
        | null =>
          have hnone : mapLookup (mergePatch (applyEntry d k Json.null) rest) k =
              none := by
            rw [hlookX, applyEntry_null]
            exact mapLookup_mapErase_self_of_nodup d k hdnd
          rw [applyEntry_null]
          exact mapErase_of_mapLookup_none _ k hnone
        | obj m =>
          have hstrict : Json.strictNoNull (Json.obj m) = true := by
            rcases hvok with h | h
            · exact absurd h (by simp)
            · exact h
          obtain ⟨hndm, hsfm⟩ := strictObj_components m hstrict
          have hpm : patchOk m = true := patchOk_of_strictObj m hstrict
          have hszm : sizeOf m < n := by
            have := sizeOf_obj_arg_lt k m rest
            omega
          have hWfix : mergePatch (mergeIntoTarget (mapLookup d k) m) m =
              mergeIntoTarget (mapLookup d k) m := by
            cases hdk : mapLookup d k with
            | none =>
              rw [mergeIntoTarget_not_obj none m (by simp)]
              exact mergePatch_noop (sizeOf m + 1) m (by omega) m hsfm
                (fun j w hjw => mapLookup_of_mem_nodup m j w hndm hjw)
            | some w =>
              cases w with
              | obj dm =>
                rw [mergeIntoTarget_obj]
                have hdmwf : fieldsWf dm = true := by
                  have := wfJson_of_lookup d k _ hdwf hdk
                  rwa [wfJson_obj] at this
                exact ih m hszm dm hpm hdmwf
              | null =>
                rw [mergeIntoTarget_not_obj _ m (by simp)]
                exact mergePatch_noop (sizeOf m + 1) m (by omega) m hsfm
                  (fun j w hjw => mapLookup_of_mem_nodup m j w hndm hjw)
              | bool b =>
                rw [mergeIntoTarget_not_obj _ m (by simp)]
                exact mergePatch_noop (sizeOf m + 1) m (by omega) m hsfm
                  (fun j w hjw => mapLookup_of_mem_nodup m j w hndm hjw)
              | num i =>
                rw [mergeIntoTarget_not_obj _ m (by simp)]
                exact mergePatch_noop (sizeOf m + 1) m (by omega) m hsfm
                  (fun j w hjw => mapLookup_of_mem_nodup m j w hndm hjw)
              | str t =>
                rw [mergeIntoTarget_not_obj _ m (by simp)]
                exact mergePatch_noop (sizeOf m + 1) m (by omega) m hsfm
                  (fun j w hjw => mapLookup_of_mem_nodup m j w hndm hjw)
              | arr xs =>
                rw [mergeIntoTarget_not_obj _ m (by simp)]
                exact mergePatch_noop (sizeOf m + 1) m (by omega) m hsfm
                  (fun j w hjw => mapLookup_of_mem_nodup m j w hndm hjw)
          have hlX : mapLookup (mergePatch (applyEntry d k (Json.obj m)) rest) k =
              some (Json.obj (mergeIntoTarget (mapLookup d k) m)) := by
            rw [hlookX, applyEntry_obj]
            exact mapLookup_mapInsert_self d k _
          rw [applyEntry_obj, hlX, mergeIntoTarget_obj, hWfix]
          exact mapInsert_of_mapLookup_eq _ k _ hlX
        | bool b =>
          have hlX : mapLookup (mergePatch (applyEntry d k (Json.bool b)) rest) k =
              some (Json.bool b) := by
            rw [hlookX, applyEntry_bool]
            exact mapLookup_mapInsert_self d k _
          rw [applyEntry_bool]
          exact mapInsert_of_mapLookup_eq _ k _ hlX
        | num i =>
          have hlX : mapLookup (mergePatch (applyEntry d k (Json.num i)) rest) k =
              some (Json.num i) := by
            rw [hlookX, applyEntry_num]
            exact mapLookup_mapInsert_self d k _
          rw [applyEntry_num]
          exact mapInsert_of_mapLookup_eq _ k _ hlX
        | str t =>
          have hlX : mapLookup (mergePatch (applyEntry d k (Json.str t)) rest) k =
              some (Json.str t) := by
            rw [hlookX, applyEntry_str]
            exact mapLookup_mapInsert_self d k _
          rw [applyEntry_str]
          exact mapInsert_of_mapLookup_eq _ k _ hlX
        | arr xs =>
          have hlX : mapLookup (mergePatch (applyEntry d k (Json.arr xs)) rest) k =
              some (Json.arr xs) := by
            rw [hlookX, applyEntry_arr]
            exact mapLookup_mapInsert_self d k _
          rw [applyEntry_arr]
          exact mapInsert_of_mapLookup_eq _ k _ hlX
      rw [mergePatch_cons d k v rest, mergePatch_cons _ k v rest, hfix]
      exact ih rest hszrest (applyEntry d k v) hrest hdapp

/-- C7 (amended): the merge patch is idempotent for every target object
(as decoded from JSON: unique keys at every level, `fieldsWf`) and every
patch whose values contain no `null` below the top level (`patchOk`:
top-level nulls — plain deletions — are allowed, nested object values must
be null-free with unique keys).  For such patches, applying the same patch
twice equals applying it once.  Without that restriction idempotence
fails: a null nested inside an object value is stored verbatim by the
first application and only deletes on the second. -/
theorem merge_patch_idempotent_strict (dst p : List (String × Json))
    (hp : patchOk p = true) (hd : fieldsWf dst = true) :
    mergePatch (mergePatch dst p) p = mergePatch dst p :=
  mergePatch_idem_aux (sizeOf p + 1) p (by omega) dst hp hd

/-- Witness for `merge_patch_idempotent_strict`: a concrete
`{"spec":{"replicas":1}}` patch applied twice to `{"spec":{"replicas":3}}`. -/
theorem merge_patch_idempotent_strict_witness :
    mergePatch
        (mergePatch [("spec", Json.obj [("replicas", Json.num 3)])]
          [("spec", Json.obj [("replicas", Json.num 1)])])
        [("spec", Json.obj [("replicas", Json.num 1)])] =
      mergePatch [("spec", Json.obj [("replicas", Json.num 3)])]
        [("spec", Json.obj [("replicas", Json.num 1)])] :=
  merge_patch_idempotent_strict
    [("spec", Json.obj [("replicas", Json.num 3)])]
    [("spec", Json.obj [("replicas", Json.num 1)])]
    (by decide) (by decide)

/-- C7 counterexample: target `{"a":5}`, patch `{"a":{"b":null}}`.  The
first application stores the patch object verbatim — including the null —
yielding `{"a":{"b":null}}`; the second application merges into that
object and the null now deletes "b", yielding `{"a":{}}`.  The two results
differ, so the merge patch is not idempotent for every target and patch. -/
theorem merge_patch_idempotent_counterexample :
    mergePatch (mergePatch [("a", Json.num 5)] [("a", Json.obj [("b", Json.null)])])
        [("a", Json.obj [("b", Json.null)])] ≠
      mergePatch [("a", Json.num 5)] [("a", Json.obj [("b", Json.null)])] := by
  have h1 : mergePatch [("a", Json.num 5)] [("a", Json.obj [("b", Json.null)])] =
      [("a", Json.obj [("b", Json.null)])] := by
    simp [mergePatch, applyEntry, mergeIntoTarget, mapLookup, mapInsert, mapErase]
  have h2 : mergePatch [("a", Json.obj [("b", Json.null)])]
      [("a", Json.obj [("b", Json.null)])] = [("a", Json.obj [])] := by
    simp [mergePatch, applyEntry, mergeIntoTarget, mapLookup, mapInsert, mapErase]
  rw [h1, h2]
  simp

end KCore
